import Mathlib

/-!
Shallow embedding of the chat backend (`src/chat/src/index.ts`) for
verification of its specification claims.

Strings are modelled as `List Char` (`Str`); timestamps (`Date.now()`
milliseconds) as `Nat`; ISO-format `created_at` strings are carried as opaque
`Str` inputs.  The SQLite tables are lists of rows kept in rowid order; the
`AUTOINCREMENT` message id counter is an explicit `nextMessageId` field.
External primitives (bcrypt, JWT) are a `Crypto` parameter.
-/

namespace Chat

abbrev Str := List Char

/-- JS `String.prototype.trim`: drop whitespace from both ends. -/
def jsTrim (cs : Str) : Str :=
  ((cs.dropWhile Char.isWhitespace).reverse.dropWhile Char.isWhitespace).reverse

/-- Character class `[a-zA-Z0-9_-]` of the nickname regex. -/
def nickChar (c : Char) : Bool :=
  c.isAlpha || c.isDigit || c = '_' || c = '-'

/-- `validateNickname`: `/^[a-zA-Z0-9_-]{3,24}$/.test(value)`. -/
def validateNickname (value : Str) : Bool :=
  decide (3 ≤ value.length ∧ value.length ≤ 24) && value.all nickChar

/-- `validatePassword`: `value.length >= 6 && value.length <= 72`. -/
def validatePassword (value : Str) : Bool :=
  decide (6 ≤ value.length ∧ value.length ≤ 72)

/-- `validateMessage`: `value.length >= 1 && value.length <= 500`. -/
def validateMessage (value : Str) : Bool :=
  decide (1 ≤ value.length ∧ value.length ≤ 500)

/-- Character class `[a-z0-9-]` under the `/i` flag. -/
def labelChar (c : Char) : Bool :=
  c.isAlpha || c.isDigit || c = '-'

/-- Word character for the `\b` assertion: `[A-Za-z0-9_]`. -/
def isWordChar (c : Char) : Bool :=
  c.isAlphanum || c = '_'

/-- Case-insensitive prefix test, for the `/i` flag of the URL regexes. -/
def ciPrefix : Str → Str → Bool
  | [], _ => true
  | _ :: _, [] => false
  | p :: ps, c :: cs => (p.toLower == c.toLower) && ciPrefix ps cs

/-- Does `cs` start with `pre` (case-insensitively, per the `/i` flag)
followed by at least one non-whitespace character (`pre` then `\S+`)? -/
def prefixThenNonWs (pre cs : Str) : Bool :=
  ciPrefix pre cs &&
    match cs.drop pre.length with
    | [] => false
    | c :: _ => !c.isWhitespace

/-- First `containsUrl` regex, `/(https?:\/\/|www\.)\S+/i`: some position
starts with one of the three alternatives followed by a non-space. -/
def urlSchemeMatch (cs : Str) : Bool :=
  cs.tails.any fun t =>
    prefixThenNonWs ("http://".data) t ||
    prefixThenNonWs ("https://".data) t ||
    prefixThenNonWs ("www.".data) t

/-- At least two leading ASCII letters: `[a-z]{2,}` (with `/i`) as a prefix. -/
def twoAlphaPrefix : Str → Bool
  | a :: b :: _ => a.isAlpha && b.isAlpha
  | _ => false

/-- Prefix match of `([a-z0-9-]+\.)+[a-z]{2,}`: some nonempty label of
`labelChar`s, a dot, then either the final `[a-z]{2,}` or another group.
Fuel decreases with each consumed group (each group eats ≥ 2 characters, so
`cs.length` fuel suffices). -/
def domainTailFuel : Nat → Str → Bool
  | 0, _ => false
  | fuel + 1, cs =>
    (List.range cs.length).any fun n =>
      (cs.take (n + 1)).all labelChar &&
        match cs.drop (n + 1) with
        | '.' :: rest => twoAlphaPrefix rest || domainTailFuel fuel rest
        | _ => false

def domainTail (cs : Str) : Bool :=
  domainTailFuel cs.length cs

/-- Word-boundary-aware scan for the second `containsUrl` regex
`/\b([a-z0-9-]+\.)+[a-z]{2,}(\/\S*)?/i` (the trailing optional group cannot
affect `.test`).  `prev` is the character before the current position. -/
def domainScan (prev : Option Char) : Str → Bool
  | [] => false
  | c :: rest =>
    ((prev.elim false isWordChar != isWordChar c) && domainTail (c :: rest)) ||
      domainScan (some c) rest

/-- `containsUrl` from the source: either regex matches somewhere. -/
def containsUrl (value : Str) : Bool :=
  urlSchemeMatch value || domainScan none value

/-! ## Rate limiter -/

def RATE_LIMIT_MAX : Nat := 5
def RATE_WINDOW_MS : Nat := 10000
def COOLDOWN_MS : Nat := 60000

structure RateEntry where
  timestamps : List Nat
  cooldownUntil : Option Nat

deriving instance DecidableEq, Repr for RateEntry

abbrev RateMap := List (Str × RateEntry)

def rateGet (m : RateMap) (k : Str) : Option RateEntry :=
  (m.find? fun p => p.1 == k).map (·.2)

def rateSet (m : RateMap) (k : Str) (v : RateEntry) : RateMap :=
  if m.any (fun p => p.1 == k) then
    m.map fun p => if p.1 == k then (k, v) else p
  else
    m ++ [(k, v)]

/-- `Math.ceil(ms / 1000)` on natural milliseconds. -/
def ceilMsToSec (ms : Nat) : Nat := (ms + 999) / 1000

structure RateResult where
  allowed : Bool
  cooldownSeconds : Option Nat

deriving instance DecidableEq, Repr for RateResult

/-- JS truthiness test `entry.cooldownUntil && now < entry.cooldownUntil`
(`0` is falsy, hence the `cu ≠ 0` guard). -/
def cooldownActive (entry : RateEntry) (now : Nat) : Bool :=
  match entry.cooldownUntil with
  | some cu => decide (cu ≠ 0) && decide (now < cu)
  | none => false

/-- `checkRateLimit(nickname, now)`: returns the decision and the updated
`rateLimits` map. -/
def checkRateLimit (limits : RateMap) (nickname : Str) (now : Nat) :
    RateResult × RateMap :=
  let entry := (rateGet limits nickname).getD ⟨[], none⟩
  let recent := entry.timestamps.filter fun timestamp =>
    decide (now - timestamp < RATE_WINDOW_MS)
  if cooldownActive entry now then
    let cu := entry.cooldownUntil.getD 0
    (⟨false, some (ceilMsToSec (cu - now))⟩,
      rateSet limits nickname ⟨recent, entry.cooldownUntil⟩)
  else if RATE_LIMIT_MAX ≤ recent.length then
    (⟨false, some (ceilMsToSec COOLDOWN_MS)⟩,
      rateSet limits nickname ⟨recent, some (now + COOLDOWN_MS)⟩)
  else
    (⟨true, none⟩, rateSet limits nickname ⟨recent ++ [now], none⟩)

/-! ## Data model -/

structure Message where
  id : Nat
  nickname : Str
  body : Str
  created_at : Str

deriving instance DecidableEq, Repr for Message

structure UserRow where
  nickname : Str
  password_hash : Str
  created_at : Str
  banned : Bool

deriving instance DecidableEq, Repr for UserRow

inductive Event
  | msg (m : Message)
  | purgeU (nickname : Str)
  | banU (nickname : Str)
  | deleteM (id : Nat)
  | warnU (nickname : Str) (messageId : Nat)
  | clearAll

deriving instance DecidableEq, Repr for Event

structure ServerState where
  users : List UserRow
  messages : List Message
  nextMessageId : Nat
  rateLimits : RateMap
  streamClients : List Nat

deriving instance DecidableEq, Repr for ServerState

/-- Order relation of `ORDER BY id DESC`. -/
def msgGe (a b : Message) : Prop := b.id ≤ a.id

instance : DecidableRel msgGe := fun _ _ => Nat.decLe _ _

instance : IsTotal Message msgGe := ⟨fun a b => Nat.le_total b.id a.id⟩

instance : IsTrans Message msgGe := ⟨fun _ _ _ hab hbc => Nat.le_trans hbc hab⟩

/-- `SELECT … FROM messages ORDER BY id DESC LIMIT 100`. -/
def selectTop100 (msgs : List Message) : List Message :=
  (msgs.insertionSort msgGe).take 100

/-- `rows.slice().reverse()` of the history endpoints: oldest first. -/
def readHistoryRows (msgs : List Message) : List Message :=
  (selectTop100 msgs).reverse

/-- `DELETE FROM messages WHERE id NOT IN (SELECT id FROM messages ORDER BY
id DESC LIMIT 100)`. -/
def trimMessages (msgs : List Message) : List Message :=
  let keep := (selectTop100 msgs).map Message.id
  msgs.filter fun m => keep.contains m.id

/-- `SELECT … FROM users WHERE nickname = ?` (first matching row). -/
def dbGetUser (users : List UserRow) (nickname : Str) : Option UserRow :=
  users.find? fun u => u.nickname == nickname

/-- `INSERT INTO users …` with the `UNIQUE` nickname constraint:
`SQLITE_CONSTRAINT` is the `.error` case. -/
def dbInsertUser (users : List UserRow) (u : UserRow) :
    Except Unit (List UserRow) :=
  if users.any (fun v => v.nickname == u.nickname) then .error ()
  else .ok (users ++ [u])

/-- Events actually written to one stream client: the full published list if
the client is connected, nothing otherwise. -/
def deliveredTo (clients : List Nat) (events : List Event) (c : Nat) :
    List Event :=
  if c ∈ clients then events else []

/-! ## External primitives (bcrypt / JWT), abstracted -/

structure Crypto where
  hash : Str → Str
  compare : Str → Str → Bool
  sign : Str → Str
  verify : Str → Option Str

/-- `getNicknameFromToken`: verify, then JS-truthiness of the payload
nickname (`payload.nickname || null`). -/
def verifyToken (c : Crypto) (token : Str) : Option Str :=
  match c.verify token with
  | some n => if n.isEmpty then none else some n
  | none => none

/-! ## Literal strings of the source -/

def invalidCredentialsMsg : Str := "Invalid credentials".data
def bannedMsg : Str := "this account has been banned".data
def redactionMarker : Str := "message deleted".data
def systemNick : Str := "system".data

def banAnnouncement (nickname : Str) : Str :=
  "user ".data ++ nickname ++ " has been banned".data

/-! ## Endpoints -/

inductive RegisterResult
  | ok (nickname token : Str)
  | invalidUsername
  | invalidPassword
  | bannedRejected
  | conflict

deriving instance DecidableEq, Repr for RegisterResult

/-- `POST /auth/register`. -/
def register (c : Crypto) (s : ServerState) (rawNickname password : Str)
    (createdAt : Str) : RegisterResult × ServerState :=
  let nickname := jsTrim rawNickname
  if ¬ validateNickname nickname then (.invalidUsername, s)
  else if ¬ validatePassword password then (.invalidPassword, s)
  else if (dbGetUser s.users nickname).elim false UserRow.banned then
    (.bannedRejected, s)
  else
    let passwordHash := c.hash password
    match dbInsertUser s.users ⟨nickname, passwordHash, createdAt, false⟩ with
    | .error _ => (.conflict, s)
    | .ok users2 => (.ok nickname (c.sign nickname), { s with users := users2 })

inductive LoginResult
  | ok (nickname token : Str)
  | err (status : Nat) (error : Str)

deriving instance DecidableEq, Repr for LoginResult

/-- `POST /auth/login`.  Failures are kept as the observable
status-code/body pairs the caller sees. -/
def login (c : Crypto) (s : ServerState) (rawNickname password : Str) :
    LoginResult :=
  let nickname := jsTrim rawNickname
  if ¬ (validateNickname nickname && validatePassword password) then
    .err 400 invalidCredentialsMsg
  else
    match dbGetUser s.users nickname with
    | none => .err 401 invalidCredentialsMsg
    | some user =>
      if user.banned then .err 403 bannedMsg
      else if ¬ c.compare password user.password_hash then
        .err 401 invalidCredentialsMsg
      else .ok nickname (c.sign nickname)

inductive PostResult
  | created (m : Message)
  | unauthorized
  | bannedRejected
  | invalidMessage
  | linksNotAllowed
  | rateLimited (cooldownSeconds : Nat) (retryAtMs : Nat)

deriving instance DecidableEq, Repr for PostResult

structure PostOut where
  result : PostResult
  state : ServerState
  events : List Event

deriving instance DecidableEq, Repr for PostOut

/-- `POST /messages`.  `nickname` is the authenticated identity from the
bearer token; `now` is `Date.now()`; `createdAt` the ISO timestamp string. -/
def post (s : ServerState) (nickname rawBody : Str) (now : Nat)
    (createdAt : Str) : PostOut :=
  match dbGetUser s.users nickname with
  | none => ⟨.unauthorized, s, []⟩
  | some user =>
    if user.banned then ⟨.bannedRejected, s, []⟩
    else
      let body := jsTrim rawBody
      if ¬ validateMessage body then ⟨.invalidMessage, s, []⟩
      else if containsUrl body then ⟨.linksNotAllowed, s, []⟩
      else
        let checked := checkRateLimit s.rateLimits nickname now
        if ¬ checked.1.allowed then
          let cooldownSeconds := checked.1.cooldownSeconds.getD 0
          ⟨.rateLimited cooldownSeconds (now + cooldownSeconds * 1000),
            { s with rateLimits := checked.2 }, []⟩
        else
          let message : Message := ⟨s.nextMessageId, nickname, body, createdAt⟩
          ⟨.created message,
            { s with
                messages := trimMessages (s.messages ++ [message]),
                nextMessageId := s.nextMessageId + 1,
                rateLimits := checked.2 },
            [.msg message]⟩

inductive HistoryResult
  | ok (messages : List Message)
  | unauthorized
  | bannedRejected

deriving instance DecidableEq, Repr for HistoryResult

/-- `GET /messages` (authenticated read). -/
def readHistory (s : ServerState) (nickname : Str) : HistoryResult :=
  match dbGetUser s.users nickname with
  | none => .unauthorized
  | some user =>
    if user.banned then .bannedRejected
    else .ok (readHistoryRows s.messages)

/-- `GET /messages/public`. -/
def readHistoryPublic (s : ServerState) : List Message :=
  readHistoryRows s.messages

inductive DeleteResult
  | ok
  | invalidId
  | notFound

deriving instance DecidableEq, Repr for DeleteResult

/-- `POST /admin/messages/:id/delete` (redaction).  The id check mirrors
`!Number.isFinite(messageId) || messageId <= 0`. -/
def deleteMessage (s : ServerState) (messageId : Nat) :
    DeleteResult × ServerState × List Event :=
  if messageId = 0 then (.invalidId, s, [])
  else if ¬ s.messages.any (fun m => m.id == messageId) then (.notFound, s, [])
  else
    (.ok,
      { s with
          messages := s.messages.map fun m =>
            if m.id == messageId then { m with body := redactionMarker } else m },
      [.deleteM messageId])

inductive BanResult
  | ok
  | invalidUsername

deriving instance DecidableEq, Repr for BanResult

/-- `POST /admin/users/:nickname/ban`. -/
def ban (s : ServerState) (rawNickname : Str) (createdAt : Str) :
    BanResult × ServerState × List Event :=
  let nickname := jsTrim rawNickname
  if ¬ validateNickname nickname then (.invalidUsername, s, [])
  else
    let users2 := s.users.map fun u =>
      if u.nickname == nickname then { u with banned := true } else u
    let redacted := s.messages.map fun m =>
      if m.nickname == nickname then { m with body := redactionMarker } else m
    let logMsg : Message :=
      ⟨s.nextMessageId, systemNick, banAnnouncement nickname, createdAt⟩
    (.ok,
      { s with
          users := users2,
          messages := trimMessages (redacted ++ [logMsg]),
          nextMessageId := s.nextMessageId + 1 },
      [.purgeU nickname, .banU nickname, .msg logMsg])

/-! ## Helper notions and lemmas -/

/-- A string with no leading and no trailing whitespace. -/
def trimmedStr (cs : Str) : Prop :=
  (∀ c, cs.head? = some c → c.isWhitespace = false) ∧
  (∀ c, cs.getLast? = some c → c.isWhitespace = false)

theorem jsTrim_nil_of_all_ws (cs : Str)
    (h : ∀ c ∈ cs, c.isWhitespace = true) : jsTrim cs = [] := by
  have h1 : cs.dropWhile Char.isWhitespace = [] :=
    List.dropWhile_eq_nil_iff.mpr h
  simp [jsTrim, h1]

theorem getLast?_dropWhile (p : Char → Bool) (l : Str)
    (h : l.dropWhile p ≠ []) : (l.dropWhile p).getLast? = l.getLast? := by
  obtain ⟨t, ht⟩ := List.dropWhile_suffix (l := l) p
  have hgoal : l.getLast? = (l.dropWhile p).getLast? := by
    conv_lhs => rw [← ht]
    rw [List.getLast?_append]
    cases hx : (l.dropWhile p).getLast? with
    | none => exact absurd (List.getLast?_eq_none_iff.mp hx) h
    | some x => simp [Option.or]
  exact hgoal.symm

theorem trimmedStr_jsTrim (cs : Str) : trimmedStr (jsTrim cs) := by
  unfold trimmedStr jsTrim
  constructor
  · intro c hc
    rw [List.head?_reverse] at hc
    have hne :
        (cs.dropWhile Char.isWhitespace).reverse.dropWhile Char.isWhitespace ≠
          [] := by
      intro h0
      rw [h0] at hc
      simp at hc
    rw [getLast?_dropWhile _ _ hne, List.getLast?_reverse] at hc
    have h := List.head?_dropWhile_not Char.isWhitespace cs
    rw [hc] at h
    exact h
  · intro c hc
    rw [List.getLast?_reverse] at hc
    have h := List.head?_dropWhile_not Char.isWhitespace
      (cs.dropWhile Char.isWhitespace).reverse
    rw [hc] at h
    exact h

theorem validateNickname_ne_nil {cs : Str} (h : validateNickname cs = true) :
    cs ≠ [] := by
  intro h0
  rw [h0] at h
  simp [validateNickname] at h

/-! ### Rate-limit map lemmas -/

theorem find_map_replace (k : Str) (v : RateEntry) (m : RateMap) :
    ((m.map fun p => if p.1 == k then (k, v) else p).find? fun p => p.1 == k) =
      if m.any (fun p => p.1 == k) then some (k, v) else none := by
  induction m with
  | nil => rfl
  | cons p rest ih =>
    by_cases hp : (p.1 == k) = true
    · have hkv : ((fun q : Str × RateEntry => q.1 == k) (k, v)) = true :=
        beq_self_eq_true k
      rw [List.map_cons, if_pos hp,
        @List.find?_cons_of_pos _ (fun q : Str × RateEntry => q.1 == k) (k, v)
          _ hkv,
        List.any_cons, hp]
      simp
    · have hpq : ¬ ((fun q : Str × RateEntry => q.1 == k) p) = true := hp
      rw [List.map_cons, if_neg hp,
        @List.find?_cons_of_neg _ (fun q : Str × RateEntry => q.1 == k) p
          _ hpq,
        ih, List.any_cons]
      have hfalse : (p.1 == k) = false := by
        cases hbe : (p.1 == k) with
        | false => rfl
        | true => exact absurd hbe hp
      rw [hfalse, Bool.false_or]

theorem rateGet_rateSet_self (m : RateMap) (k : Str) (v : RateEntry) :
    rateGet (rateSet m k v) k = some v := by
  unfold rateGet rateSet
  by_cases h : m.any (fun p => p.1 == k) = true
  · rw [if_pos h, find_map_replace, if_pos h, Option.map_some']
  · have hnone : m.find? (fun p => p.1 == k) = none := by
      rw [List.find?_eq_none]
      intro x hx hpx
      exact h (List.any_eq_true.mpr ⟨x, hx, hpx⟩)
    have hkv : ((fun q : Str × RateEntry => q.1 == k) (k, v)) = true :=
      beq_self_eq_true k
    rw [if_neg h, List.find?_append, hnone,
      @List.find?_cons_of_pos _ (fun q : Str × RateEntry => q.1 == k) (k, v)
        _ hkv]
    rfl

/-! ### Rate-limit step lemmas -/

theorem ceilMsToSec_cooldown : ceilMsToSec COOLDOWN_MS = 60 := by decide

theorem checkRateLimit_of_none (limits : RateMap) (nick : Str) (now : Nat)
    (h : rateGet limits nick = none) :
    checkRateLimit limits nick now =
      (⟨true, none⟩, rateSet limits nick ⟨[now], none⟩) := by
  simp [checkRateLimit, h, cooldownActive, RATE_LIMIT_MAX]

theorem checkRateLimit_of_open (limits : RateMap) (nick : Str) (now : Nat)
    (ts : List Nat) (h : rateGet limits nick = some ⟨ts, none⟩) :
    checkRateLimit limits nick now =
      (let recent := ts.filter fun t => decide (now - t < RATE_WINDOW_MS)
      if RATE_LIMIT_MAX ≤ recent.length then
        (⟨false, some 60⟩, rateSet limits nick ⟨recent, some (now + COOLDOWN_MS)⟩)
      else
        (⟨true, none⟩, rateSet limits nick ⟨recent ++ [now], none⟩)) := by
  simp [checkRateLimit, h, cooldownActive, ceilMsToSec_cooldown]

theorem checkRateLimit_throttled (limits : RateMap) (nick : Str) (now : Nat)
    (ts : List Nat) (cu : Nat) (h : rateGet limits nick = some ⟨ts, some cu⟩)
    (h0 : cu ≠ 0) (hlt : now < cu) :
    checkRateLimit limits nick now =
      (⟨false, some (ceilMsToSec (cu - now))⟩,
        rateSet limits nick
          ⟨ts.filter fun t => decide (now - t < RATE_WINDOW_MS), some cu⟩) := by
  simp [checkRateLimit, h, cooldownActive, h0, hlt]

theorem checkRateLimit_throttle_expired (limits : RateMap) (nick : Str)
    (now : Nat) (ts : List Nat) (cu : Nat)
    (h : rateGet limits nick = some ⟨ts, some cu⟩) (hge : cu ≤ now) :
    checkRateLimit limits nick now =
      (let recent := ts.filter fun t => decide (now - t < RATE_WINDOW_MS)
      if RATE_LIMIT_MAX ≤ recent.length then
        (⟨false, some 60⟩, rateSet limits nick ⟨recent, some (now + COOLDOWN_MS)⟩)
      else
        (⟨true, none⟩, rateSet limits nick ⟨recent ++ [now], none⟩)) := by
  have hcu : ¬ (now < cu) := Nat.not_lt.mpr hge
  simp [checkRateLimit, h, cooldownActive, hcu, ceilMsToSec_cooldown]

/-! ### History and trim lemmas -/

theorem length_readHistoryRows_le (msgs : List Message) :
    (readHistoryRows msgs).length ≤ 100 := by
  rw [readHistoryRows, List.length_reverse, selectTop100, List.length_take]
  exact min_le_left _ _

theorem nodup_insertionSort_ids (msgs : List Message)
    (h : (msgs.map Message.id).Nodup) :
    ((msgs.insertionSort msgGe).map Message.id).Nodup :=
  (((List.perm_insertionSort msgGe msgs).map Message.id).nodup_iff).mpr h

theorem pairwise_gt_insertionSort (msgs : List Message)
    (h : (msgs.map Message.id).Nodup) :
    List.Pairwise (fun a b : Message => b.id < a.id)
      (msgs.insertionSort msgGe) := by
  have hs : List.Pairwise msgGe (msgs.insertionSort msgGe) :=
    List.sorted_insertionSort msgGe msgs
  have hne : List.Pairwise (fun a b : Message => a.id ≠ b.id)
      (msgs.insertionSort msgGe) :=
    List.pairwise_map.mp (nodup_insertionSort_ids msgs h)
  exact (hs.and hne).imp fun hab => lt_of_le_of_ne hab.1 (Ne.symm hab.2)

theorem pairwise_lt_readHistoryRows (msgs : List Message)
    (h : (msgs.map Message.id).Nodup) :
    List.Pairwise (fun a b : Message => a.id < b.id) (readHistoryRows msgs) := by
  rw [readHistoryRows, List.pairwise_reverse]
  exact List.Pairwise.sublist (List.take_sublist _ _)
    (pairwise_gt_insertionSort msgs h)

theorem mem_of_mem_selectTop100 {msgs : List Message} {m : Message}
    (h : m ∈ selectTop100 msgs) : m ∈ msgs :=
  (List.perm_insertionSort msgGe msgs).mem_iff.mp
    ((List.take_sublist _ _).subset h)

theorem mem_of_mem_trimMessages {msgs : List Message} {m : Message}
    (h : m ∈ trimMessages msgs) : m ∈ msgs :=
  (List.mem_filter.mp h).1

theorem mem_trimMessages_iff (msgs : List Message)
    (hnd : (msgs.map Message.id).Nodup) (m : Message) :
    m ∈ trimMessages msgs ↔ m ∈ selectTop100 msgs := by
  rw [trimMessages, List.mem_filter]
  constructor
  · rintro ⟨hm, hc⟩
    have hidmem : m.id ∈ (selectTop100 msgs).map Message.id :=
      List.elem_iff.mp hc
    obtain ⟨mp, hmp, hid⟩ := List.mem_map.mp hidmem
    have : mp = m :=
      List.inj_on_of_nodup_map hnd (mem_of_mem_selectTop100 hmp) hm hid
    rwa [← this]
  · intro hsel
    refine ⟨mem_of_mem_selectTop100 hsel, ?_⟩
    exact List.elem_iff.mpr (List.mem_map_of_mem Message.id hsel)

theorem trim_perm_selectTop100 (msgs : List Message)
    (hnd : (msgs.map Message.id).Nodup) :
    (trimMessages msgs).Perm (selectTop100 msgs) := by
  have hmsgs : msgs.Nodup := List.Nodup.of_map Message.id hnd
  have h1 : (trimMessages msgs).Nodup :=
    List.Nodup.sublist (List.filter_sublist msgs) hmsgs
  have h2 : (selectTop100 msgs).Nodup :=
    List.Nodup.sublist (List.take_sublist _ _)
      ((List.perm_insertionSort msgGe msgs).nodup_iff.mpr hmsgs)
  apply List.perm_of_nodup_nodup_toFinset_eq h1 h2
  ext x
  simp only [List.mem_toFinset]
  exact mem_trimMessages_iff msgs hnd x

theorem length_trimMessages (msgs : List Message)
    (hnd : (msgs.map Message.id).Nodup) :
    (trimMessages msgs).length = min 100 msgs.length := by
  rw [(trim_perm_selectTop100 msgs hnd).length_eq, selectTop100,
    List.length_take, (List.perm_insertionSort msgGe msgs).length_eq]

theorem trim_drop_lt_keep (msgs : List Message)
    (hnd : (msgs.map Message.id).Nodup) (m : Message) (hm : m ∈ msgs)
    (hdrop : m ∉ trimMessages msgs) (mk : Message)
    (hk : mk ∈ trimMessages msgs) : m.id < mk.id := by
  have hmk_sel : mk ∈ selectTop100 msgs :=
    (mem_trimMessages_iff msgs hnd mk).mp hk
  have hm_not : m ∉ selectTop100 msgs := fun hc =>
    hdrop ((mem_trimMessages_iff msgs hnd m).mpr hc)
  have hm_sorted : m ∈ msgs.insertionSort msgGe :=
    (List.perm_insertionSort msgGe msgs).mem_iff.mpr hm
  have hsplit := List.take_append_drop 100 (msgs.insertionSort msgGe)
  have hm_drop : m ∈ (msgs.insertionSort msgGe).drop 100 := by
    rw [← hsplit] at hm_sorted
    rcases List.mem_append.mp hm_sorted with hL | hR
    · exact absurd hL hm_not
    · exact hR
  have hpair := pairwise_gt_insertionSort msgs hnd
  rw [← hsplit] at hpair
  exact (List.pairwise_append.mp hpair).2.2 mk hmk_sel m hm_drop

/-! ### Post sequences and well-formedness -/

structure PostIn where
  nickname : Str
  rawBody : Str
  now : Nat
  createdAt : Str

deriving instance DecidableEq, Repr for PostIn

/-- Fold a sequence of `POST /messages` requests over the state. -/
def applyPosts (s : ServerState) : List PostIn → ServerState
  | [] => s
  | i :: rest => applyPosts (post s i.nickname i.rawBody i.now i.createdAt).state rest

/-- Like `applyPosts` but also reports whether every post succeeded. -/
def runPosts (s : ServerState) : List PostIn → Bool × ServerState
  | [] => (true, s)
  | i :: rest =>
    let out := post s i.nickname i.rawBody i.now i.createdAt
    let next := runPosts out.state rest
    ((match out.result with
      | .created _ => true
      | _ => false) && next.1, next.2)

/-- Invariant of the messages table: distinct ids, all below the
`AUTOINCREMENT` counter. -/
def messagesWF (s : ServerState) : Prop :=
  (s.messages.map Message.id).Nodup ∧
  ∀ m ∈ s.messages, m.id < s.nextMessageId

theorem runPosts_snd (ops : List PostIn) : ∀ s : ServerState,
    (runPosts s ops).2 = applyPosts s ops := by
  induction ops with
  | nil => intro s; rfl
  | cons i rest ih => intro s; simp [runPosts, applyPosts, ih]

/-! ### Branch lemmas for `post` -/

theorem post_of_no_user (s : ServerState) (n b : Str) (now : Nat) (ca : Str)
    (h : dbGetUser s.users n = none) :
    post s n b now ca = ⟨.unauthorized, s, []⟩ := by
  simp [post, h]

theorem post_of_banned (s : ServerState) (n b : Str) (now : Nat) (ca : Str)
    (u : UserRow) (h : dbGetUser s.users n = some u) (hb : u.banned = true) :
    post s n b now ca = ⟨.bannedRejected, s, []⟩ := by
  simp [post, h, hb]

theorem post_of_invalid (s : ServerState) (n b : Str) (now : Nat) (ca : Str)
    (u : UserRow) (h : dbGetUser s.users n = some u) (hb : u.banned = false)
    (hv : validateMessage (jsTrim b) = false) :
    post s n b now ca = ⟨.invalidMessage, s, []⟩ := by
  simp [post, h, hb, hv]

theorem post_of_url (s : ServerState) (n b : Str) (now : Nat) (ca : Str)
    (u : UserRow) (h : dbGetUser s.users n = some u) (hb : u.banned = false)
    (hv : validateMessage (jsTrim b) = true)
    (hurl : containsUrl (jsTrim b) = true) :
    post s n b now ca = ⟨.linksNotAllowed, s, []⟩ := by
  simp [post, h, hb, hv, hurl]

theorem post_of_rate_limited (s : ServerState) (n b : Str) (now : Nat)
    (ca : Str) (u : UserRow) (h : dbGetUser s.users n = some u)
    (hb : u.banned = false) (hv : validateMessage (jsTrim b) = true)
    (hurl : containsUrl (jsTrim b) = false)
    (hallow : (checkRateLimit s.rateLimits n now).1.allowed = false) :
    post s n b now ca =
      ⟨.rateLimited ((checkRateLimit s.rateLimits n now).1.cooldownSeconds.getD 0)
          (now + ((checkRateLimit s.rateLimits n now).1.cooldownSeconds.getD 0) * 1000),
        { s with rateLimits := (checkRateLimit s.rateLimits n now).2 }, []⟩ := by
  simp [post, h, hb, hv, hurl, hallow]

theorem post_success (s : ServerState) (n b : Str) (now : Nat) (ca : Str)
    (u : UserRow) (h : dbGetUser s.users n = some u) (hb : u.banned = false)
    (hv : validateMessage (jsTrim b) = true)
    (hurl : containsUrl (jsTrim b) = false)
    (hallow : (checkRateLimit s.rateLimits n now).1.allowed = true) :
    post s n b now ca =
      ⟨.created ⟨s.nextMessageId, n, jsTrim b, ca⟩,
        { s with
            messages := trimMessages
              (s.messages ++ [⟨s.nextMessageId, n, jsTrim b, ca⟩]),
            nextMessageId := s.nextMessageId + 1,
            rateLimits := (checkRateLimit s.rateLimits n now).2 },
        [.msg ⟨s.nextMessageId, n, jsTrim b, ca⟩]⟩ := by
  simp [post, h, hb, hv, hurl, hallow]

/-- Exhaustive case analysis of `post`: exactly the six outcomes of the
handler, with the conditions leading to each. -/
theorem post_cases (s : ServerState) (n b : Str) (now : Nat) (ca : Str) :
    (dbGetUser s.users n = none ∧ post s n b now ca = ⟨.unauthorized, s, []⟩) ∨
    (∃ u, dbGetUser s.users n = some u ∧ u.banned = true ∧
      post s n b now ca = ⟨.bannedRejected, s, []⟩) ∨
    (∃ u, dbGetUser s.users n = some u ∧ u.banned = false ∧
      validateMessage (jsTrim b) = false ∧
      post s n b now ca = ⟨.invalidMessage, s, []⟩) ∨
    (∃ u, dbGetUser s.users n = some u ∧ u.banned = false ∧
      validateMessage (jsTrim b) = true ∧ containsUrl (jsTrim b) = true ∧
      post s n b now ca = ⟨.linksNotAllowed, s, []⟩) ∨
    (∃ u, dbGetUser s.users n = some u ∧ u.banned = false ∧
      validateMessage (jsTrim b) = true ∧ containsUrl (jsTrim b) = false ∧
      (checkRateLimit s.rateLimits n now).1.allowed = false ∧
      post s n b now ca =
        ⟨.rateLimited ((checkRateLimit s.rateLimits n now).1.cooldownSeconds.getD 0)
            (now + ((checkRateLimit s.rateLimits n now).1.cooldownSeconds.getD 0) * 1000),
          { s with rateLimits := (checkRateLimit s.rateLimits n now).2 }, []⟩) ∨
    (∃ u, dbGetUser s.users n = some u ∧ u.banned = false ∧
      validateMessage (jsTrim b) = true ∧ containsUrl (jsTrim b) = false ∧
      (checkRateLimit s.rateLimits n now).1.allowed = true ∧
      post s n b now ca =
        ⟨.created ⟨s.nextMessageId, n, jsTrim b, ca⟩,
          { s with
              messages := trimMessages
                (s.messages ++ [⟨s.nextMessageId, n, jsTrim b, ca⟩]),
              nextMessageId := s.nextMessageId + 1,
              rateLimits := (checkRateLimit s.rateLimits n now).2 },
          [.msg ⟨s.nextMessageId, n, jsTrim b, ca⟩]⟩) := by
  cases hget : dbGetUser s.users n with
  | none => exact Or.inl ⟨rfl, post_of_no_user s n b now ca hget⟩
  | some u =>
    cases hb : u.banned with
    | true =>
      exact Or.inr (Or.inl ⟨u, rfl, hb, post_of_banned s n b now ca u hget hb⟩)
    | false =>
      cases hv : validateMessage (jsTrim b) with
      | false =>
        exact Or.inr (Or.inr (Or.inl
          ⟨u, rfl, hb, rfl, post_of_invalid s n b now ca u hget hb hv⟩))
      | true =>
        cases hurl : containsUrl (jsTrim b) with
        | true =>
          exact Or.inr (Or.inr (Or.inr (Or.inl
            ⟨u, rfl, hb, rfl, rfl, post_of_url s n b now ca u hget hb hv hurl⟩)))
        | false =>
          cases hallow : (checkRateLimit s.rateLimits n now).1.allowed with
          | false =>
            exact Or.inr (Or.inr (Or.inr (Or.inr (Or.inl
              ⟨u, rfl, hb, rfl, rfl, rfl,
                post_of_rate_limited s n b now ca u hget hb hv hurl hallow⟩))))
          | true =>
            exact Or.inr (Or.inr (Or.inr (Or.inr (Or.inr
              ⟨u, rfl, hb, rfl, rfl, rfl,
                post_success s n b now ca u hget hb hv hurl hallow⟩))))

/-! ### Preservation of the table invariant -/

theorem nodup_ids_trim (msgs : List Message)
    (h : (msgs.map Message.id).Nodup) :
    ((trimMessages msgs).map Message.id).Nodup :=
  List.Nodup.sublist (List.Sublist.map Message.id (List.filter_sublist msgs)) h

theorem nodup_ids_append_fresh (msgs : List Message) (msg : Message)
    (hnd : (msgs.map Message.id).Nodup)
    (hfresh : ∀ m ∈ msgs, m.id ≠ msg.id) :
    ((msgs ++ [msg]).map Message.id).Nodup := by
  rw [List.map_append, List.nodup_append]
  refine ⟨hnd, List.nodup_singleton _, ?_⟩
  intro x hx hy
  obtain ⟨m, hm, rfl⟩ := List.mem_map.mp hx
  simp only [List.map_cons, List.map_nil, List.mem_singleton] at hy
  exact hfresh m hm hy

theorem messagesWF_post (s : ServerState) (n b : Str) (now : Nat) (ca : Str)
    (h : messagesWF s) : messagesWF (post s n b now ca).state := by
  rcases post_cases s n b now ca with
    ⟨_, heq⟩ | ⟨u, _, _, heq⟩ | ⟨u, _, _, _, heq⟩ | ⟨u, _, _, _, _, heq⟩ |
    ⟨u, _, _, _, _, _, heq⟩ | ⟨u, _, _, _, _, _, heq⟩ <;> rw [heq]
  · exact h
  · exact h
  · exact h
  · exact h
  · exact h
  · have hfresh : ∀ m ∈ s.messages,
        m.id ≠ (⟨s.nextMessageId, n, jsTrim b, ca⟩ : Message).id :=
      fun m hm => Nat.ne_of_lt (h.2 m hm)
    have hnd2 := nodup_ids_append_fresh s.messages _ h.1 hfresh
    refine ⟨nodup_ids_trim _ hnd2, ?_⟩
    intro m hm
    have hm2 := mem_of_mem_trimMessages hm
    rcases List.mem_append.mp hm2 with hold | hnew
    · exact Nat.lt_succ_of_lt (h.2 m hold)
    · rw [List.mem_singleton.mp hnew]
      exact Nat.lt_succ_self _

theorem messagesWF_applyPosts (ops : List PostIn) : ∀ s : ServerState,
    messagesWF s → messagesWF (applyPosts s ops) := by
  induction ops with
  | nil => intro s h; exact h
  | cons i rest ih =>
    intro s h
    exact ih _ (messagesWF_post s i.nickname i.rawBody i.now i.createdAt h)

theorem checkRateLimit_open_accept (limits : RateMap) (nick : Str) (now : Nat)
    (ts : List Nat) (h : rateGet limits nick = some ⟨ts, none⟩)
    (hkeep : ∀ t ∈ ts, now - t < RATE_WINDOW_MS)
    (hlen : ts.length < RATE_LIMIT_MAX) :
    checkRateLimit limits nick now =
      (⟨true, none⟩, rateSet limits nick ⟨ts ++ [now], none⟩) := by
  rw [checkRateLimit_of_open _ _ _ _ h]
  have hf : ts.filter (fun t => decide (now - t < RATE_WINDOW_MS)) = ts := by
    rw [List.filter_eq_self]
    intro a ha
    exact decide_eq_true (hkeep a ha)
  simp only [hf]
  rw [if_neg (Nat.not_le.mpr hlen)]

theorem checkRateLimit_open_reject (limits : RateMap) (nick : Str) (now : Nat)
    (ts : List Nat) (h : rateGet limits nick = some ⟨ts, none⟩)
    (hkeep : ∀ t ∈ ts, now - t < RATE_WINDOW_MS)
    (hlen : RATE_LIMIT_MAX ≤ ts.length) :
    checkRateLimit limits nick now =
      (⟨false, some 60⟩,
        rateSet limits nick ⟨ts, some (now + COOLDOWN_MS)⟩) := by
  rw [checkRateLimit_of_open _ _ _ _ h]
  have hf : ts.filter (fun t => decide (now - t < RATE_WINDOW_MS)) = ts := by
    rw [List.filter_eq_self]
    intro a ha
    exact decide_eq_true (hkeep a ha)
  simp only [hf]
  rw [if_pos hlen]

theorem checkRateLimit_cooldown_fresh (limits : RateMap) (nick : Str)
    (now : Nat) (ts : List Nat) (cu : Nat)
    (h : rateGet limits nick = some ⟨ts, some cu⟩) (hge : cu ≤ now)
    (hstale : ∀ t ∈ ts, ¬ (now - t < RATE_WINDOW_MS)) :
    checkRateLimit limits nick now =
      (⟨true, none⟩, rateSet limits nick ⟨[now], none⟩) := by
  rw [checkRateLimit_throttle_expired _ _ _ _ _ h hge]
  have hf : ts.filter (fun t => decide (now - t < RATE_WINDOW_MS)) = [] := by
    rw [List.filter_eq_nil_iff]
    intro a ha
    simpa using hstale a ha
  simp only [hf]
  rw [if_neg (by norm_num [RATE_LIMIT_MAX])]
  simp

/-- C2: from the Open state with an empty window, five posts inside a
10-second window are accepted, the sixth is rejected with a 60-second
cooldown and moves to `Throttled(t6 + 60s)`, any attempt before the cooldown
expires is rejected with the remaining seconds and is not recorded, and an
attempt 61 seconds after the cooldown began is accepted on a fresh window
with the cooldown field cleared. -/
theorem rateLimiter_window_cooldown (limits0 : RateMap) (nick : Str)
    (t1 t2 t3 t4 t5 t6 : Nat) (r1 r2 r3 r4 r5 r6 : RateResult × RateMap)
    (h0 : rateGet limits0 nick = none)
    (h12 : t1 ≤ t2) (h23 : t2 ≤ t3) (h34 : t3 ≤ t4) (h45 : t4 ≤ t5)
    (h56 : t5 ≤ t6) (hw : t6 - t1 < RATE_WINDOW_MS)
    (hr1 : r1 = checkRateLimit limits0 nick t1)
    (hr2 : r2 = checkRateLimit r1.2 nick t2)
    (hr3 : r3 = checkRateLimit r2.2 nick t3)
    (hr4 : r4 = checkRateLimit r3.2 nick t4)
    (hr5 : r5 = checkRateLimit r4.2 nick t5)
    (hr6 : r6 = checkRateLimit r5.2 nick t6) :
    r1.1.allowed = true ∧ r2.1.allowed = true ∧ r3.1.allowed = true ∧
    r4.1.allowed = true ∧ r5.1.allowed = true ∧
    r6.1 = ⟨false, some 60⟩ ∧
    rateGet r6.2 nick =
      some ⟨[t1, t2, t3, t4, t5], some (t6 + COOLDOWN_MS)⟩ ∧
    (∀ tp, tp < t6 + COOLDOWN_MS →
      (checkRateLimit r6.2 nick tp).1 =
        ⟨false, some (ceilMsToSec (t6 + COOLDOWN_MS - tp))⟩ ∧
      rateGet (checkRateLimit r6.2 nick tp).2 nick =
        some ⟨[t1, t2, t3, t4, t5].filter
            (fun ts => decide (tp - ts < RATE_WINDOW_MS)),
          some (t6 + COOLDOWN_MS)⟩) ∧
    (checkRateLimit r6.2 nick (t6 + 61000)).1.allowed = true ∧
    rateGet (checkRateLimit r6.2 nick (t6 + 61000)).2 nick =
      some ⟨[t6 + 61000], none⟩ := by
  subst hr1 hr2 hr3 hr4 hr5 hr6
  have hw10 : t6 - t1 < 10000 := hw
  set L1 := rateSet limits0 nick ⟨[t1], none⟩ with hL1
  set L2 := rateSet L1 nick ⟨[t1, t2], none⟩ with hL2
  set L3 := rateSet L2 nick ⟨[t1, t2, t3], none⟩ with hL3
  set L4 := rateSet L3 nick ⟨[t1, t2, t3, t4], none⟩ with hL4
  set L5 := rateSet L4 nick ⟨[t1, t2, t3, t4, t5], none⟩ with hL5
  set L6 := rateSet L5 nick
    ⟨[t1, t2, t3, t4, t5], some (t6 + COOLDOWN_MS)⟩ with hL6
  have e1 : checkRateLimit limits0 nick t1 = (⟨true, none⟩, L1) :=
    checkRateLimit_of_none limits0 nick t1 h0
  have g1 : rateGet L1 nick = some ⟨[t1], none⟩ := by
    rw [hL1]; exact rateGet_rateSet_self limits0 nick _
  have e2 : checkRateLimit L1 nick t2 = (⟨true, none⟩, L2) := by
    rw [hL2]
    have h := checkRateLimit_open_accept L1 nick t2 [t1] g1
      (by
        intro t ht
        rw [List.mem_singleton.mp ht]
        show t2 - t1 < 10000
        omega)
      (by norm_num [RATE_LIMIT_MAX])
    simpa using h
  have g2 : rateGet L2 nick = some ⟨[t1, t2], none⟩ := by
    rw [hL2]; exact rateGet_rateSet_self L1 nick _
  have e3 : checkRateLimit L2 nick t3 = (⟨true, none⟩, L3) := by
    rw [hL3]
    have h := checkRateLimit_open_accept L2 nick t3 [t1, t2] g2
      (by
        intro t ht
        show t3 - t < 10000
        rcases List.mem_cons.mp ht with rfl | ht
        · omega
        · rw [List.mem_singleton.mp ht]; omega)
      (by norm_num [RATE_LIMIT_MAX])
    simpa using h
  have g3 : rateGet L3 nick = some ⟨[t1, t2, t3], none⟩ := by
    rw [hL3]; exact rateGet_rateSet_self L2 nick _
  have e4 : checkRateLimit L3 nick t4 = (⟨true, none⟩, L4) := by
    rw [hL4]
    have h := checkRateLimit_open_accept L3 nick t4 [t1, t2, t3] g3
      (by
        intro t ht
        show t4 - t < 10000
        rcases List.mem_cons.mp ht with rfl | ht
        · omega
        rcases List.mem_cons.mp ht with rfl | ht
        · omega
        · rw [List.mem_singleton.mp ht]; omega)
      (by norm_num [RATE_LIMIT_MAX])
    simpa using h
  have g4 : rateGet L4 nick = some ⟨[t1, t2, t3, t4], none⟩ := by
    rw [hL4]; exact rateGet_rateSet_self L3 nick _
  have e5 : checkRateLimit L4 nick t5 = (⟨true, none⟩, L5) := by
    rw [hL5]
    have h := checkRateLimit_open_accept L4 nick t5 [t1, t2, t3, t4] g4
      (by
        intro t ht
        show t5 - t < 10000
        rcases List.mem_cons.mp ht with rfl | ht
        · omega
        rcases List.mem_cons.mp ht with rfl | ht
        · omega
        rcases List.mem_cons.mp ht with rfl | ht
        · omega
        · rw [List.mem_singleton.mp ht]; omega)
      (by norm_num [RATE_LIMIT_MAX])
    simpa using h
  have g5 : rateGet L5 nick = some ⟨[t1, t2, t3, t4, t5], none⟩ := by
    rw [hL5]; exact rateGet_rateSet_self L4 nick _
  have hmem6 : ∀ t ∈ [t1, t2, t3, t4, t5], t6 - t < RATE_WINDOW_MS := by
    intro t ht
    show t6 - t < 10000
    rcases List.mem_cons.mp ht with rfl | ht
    · omega
    rcases List.mem_cons.mp ht with rfl | ht
    · omega
    rcases List.mem_cons.mp ht with rfl | ht
    · omega
    rcases List.mem_cons.mp ht with rfl | ht
    · omega
    · rw [List.mem_singleton.mp ht]; omega
  have e6 : checkRateLimit L5 nick t6 = (⟨false, some 60⟩, L6) := by
    rw [hL6]
    exact checkRateLimit_open_reject L5 nick t6 [t1, t2, t3, t4, t5] g5 hmem6
      (by norm_num [RATE_LIMIT_MAX])
  have g6 : rateGet L6 nick =
      some ⟨[t1, t2, t3, t4, t5], some (t6 + COOLDOWN_MS)⟩ := by
    rw [hL6]; exact rateGet_rateSet_self L5 nick _
  have hmemle : ∀ t ∈ [t1, t2, t3, t4, t5], t ≤ t6 := by
    intro t ht
    rcases List.mem_cons.mp ht with rfl | ht
    · omega
    rcases List.mem_cons.mp ht with rfl | ht
    · omega
    rcases List.mem_cons.mp ht with rfl | ht
    · omega
    rcases List.mem_cons.mp ht with rfl | ht
    · omega
    · rw [List.mem_singleton.mp ht]; omega
  have efr : checkRateLimit L6 nick (t6 + 61000) =
      (⟨true, none⟩, rateSet L6 nick ⟨[t6 + 61000], none⟩) :=
    checkRateLimit_cooldown_fresh L6 nick (t6 + 61000) [t1, t2, t3, t4, t5]
      (t6 + COOLDOWN_MS) g6
      (by show t6 + 60000 ≤ t6 + 61000; omega)
      (by
        intro t ht
        have := hmemle t ht
        show ¬ (t6 + 61000 - t < 10000)
        omega)
  refine ⟨?_, ?_, ?_, ?_, ?_, ?_, ?_, ?_, ?_, ?_⟩
  · simp only [e1]
  · simp only [e1, e2]
  · simp only [e1, e2, e3]
  · simp only [e1, e2, e3, e4]
  · simp only [e1, e2, e3, e4, e5]
  · simp only [e1, e2, e3, e4, e5, e6]
  · simp only [e1, e2, e3, e4, e5, e6]
    exact g6
  · intro tp htp
    have ethr : checkRateLimit L6 nick tp =
        (⟨false, some (ceilMsToSec (t6 + COOLDOWN_MS - tp))⟩,
          rateSet L6 nick
            ⟨[t1, t2, t3, t4, t5].filter
                (fun t => decide (tp - t < RATE_WINDOW_MS)),
              some (t6 + COOLDOWN_MS)⟩) :=
      checkRateLimit_throttled L6 nick tp [t1, t2, t3, t4, t5]
        (t6 + COOLDOWN_MS) g6 (by show t6 + 60000 ≠ 0; omega) htp
    constructor
    · simp only [e1, e2, e3, e4, e5, e6, ethr]
    · simp only [e1, e2, e3, e4, e5, e6, ethr]
      exact rateGet_rateSet_self L6 nick _
  · simp only [e1, e2, e3, e4, e5, e6, efr]
  · simp only [e1, e2, e3, e4, e5, e6, efr]
    exact rateGet_rateSet_self L6 nick _

/-- Witness for the rate-limiter scenario at concrete inputs
`t = 0,1,2,3,4,5` from the empty map. -/
theorem rateLimiter_window_cooldown_witness :
    (checkRateLimit (checkRateLimit (checkRateLimit (checkRateLimit (checkRateLimit (checkRateLimit ([] : RateMap) "alice".data 0).2 "alice".data 1).2 "alice".data 2).2 "alice".data 3).2 "alice".data 4).2 "alice".data 5).1 = ⟨false, some 60⟩ ∧
    rateGet (checkRateLimit (checkRateLimit (checkRateLimit (checkRateLimit (checkRateLimit (checkRateLimit ([] : RateMap) "alice".data 0).2 "alice".data 1).2 "alice".data 2).2 "alice".data 3).2 "alice".data 4).2 "alice".data 5).2 "alice".data =
      some ⟨[0, 1, 2, 3, 4], some (5 + COOLDOWN_MS)⟩ ∧
    (checkRateLimit (checkRateLimit (checkRateLimit (checkRateLimit (checkRateLimit (checkRateLimit (checkRateLimit ([] : RateMap) "alice".data 0).2 "alice".data 1).2 "alice".data 2).2 "alice".data 3).2 "alice".data 4).2 "alice".data 5).2 "alice".data (5 + 61000)).1.allowed = true :=
  have h := rateLimiter_window_cooldown [] "alice".data 0 1 2 3 4 5
    (checkRateLimit ([] : RateMap) "alice".data 0) (checkRateLimit (checkRateLimit ([] : RateMap) "alice".data 0).2 "alice".data 1) (checkRateLimit (checkRateLimit (checkRateLimit ([] : RateMap) "alice".data 0).2 "alice".data 1).2 "alice".data 2) (checkRateLimit (checkRateLimit (checkRateLimit (checkRateLimit ([] : RateMap) "alice".data 0).2 "alice".data 1).2 "alice".data 2).2 "alice".data 3) (checkRateLimit (checkRateLimit (checkRateLimit (checkRateLimit (checkRateLimit ([] : RateMap) "alice".data 0).2 "alice".data 1).2 "alice".data 2).2 "alice".data 3).2 "alice".data 4) (checkRateLimit (checkRateLimit (checkRateLimit (checkRateLimit (checkRateLimit (checkRateLimit ([] : RateMap) "alice".data 0).2 "alice".data 1).2 "alice".data 2).2 "alice".data 3).2 "alice".data 4).2 "alice".data 5)
    rfl (by decide) (by decide) (by decide) (by decide) (by decide)
    (by decide) rfl rfl rfl rfl rfl rfl
  ⟨h.2.2.2.2.2.1, h.2.2.2.2.2.2.1, h.2.2.2.2.2.2.2.2.1⟩

/-! ### Concrete 101-post scenario -/

def demoUser : UserRow := ⟨"alice".data, "secret".data, [], false⟩

def demoStart : ServerState := ⟨[demoUser], [], 1, [], [0]⟩

/-- 101 posts by `alice`, 20 seconds apart (so none is rate-limited). -/
def demoPosts : List PostIn :=
  (List.range 101).map fun i => ⟨"alice".data, "hi".data, i * 20000, []⟩

set_option maxRecDepth 100000 in
/-- Evaluation of the 101-post scenario: every post succeeded and the
resulting history is exactly ids 2..101. -/
theorem demo101_report :
    (runPosts demoStart demoPosts).1 = true ∧
    (readHistoryRows (applyPosts demoStart demoPosts).messages).map Message.id =
      List.range' 2 100 := by
  constructor
  · decide
  · decide

/-- C1: after any sequence of posts from a well-formed ledger state, the
history returned by the authenticated read (which equals the public read)
has at most 100 messages in strictly increasing id order; the post-insert
trim retains exactly the 100 highest-id rows (its result is inside the
table, has length `min 100 n`, and every dropped row's id is below every
kept row's id); and after 101 sequential posts into an empty ledger every
post succeeds and the history is exactly the 100 ids 2..101, oldest id 2. -/
theorem history_invariant_and_trim :
    (∀ (s : ServerState) (ops : List PostIn), messagesWF s →
      (readHistoryPublic (applyPosts s ops)).length ≤ 100 ∧
      List.Pairwise (fun a b => a.id < b.id)
        (readHistoryPublic (applyPosts s ops)) ∧
      ∀ nick h, readHistory (applyPosts s ops) nick = .ok h →
        h = readHistoryPublic (applyPosts s ops)) ∧
    (∀ msgs : List Message, (msgs.map Message.id).Nodup →
      (trimMessages msgs).length = min 100 msgs.length ∧
      (∀ m ∈ trimMessages msgs, m ∈ msgs) ∧
      (∀ m ∈ msgs, m ∉ trimMessages msgs →
        ∀ mk ∈ trimMessages msgs, m.id < mk.id)) ∧
    ((runPosts demoStart demoPosts).1 = true ∧
      (readHistoryRows (applyPosts demoStart demoPosts).messages).map
        Message.id = List.range' 2 100 ∧
      (readHistoryRows (applyPosts demoStart demoPosts).messages).length =
        100 ∧
      ((readHistoryRows (applyPosts demoStart demoPosts).messages).head?).map
        Message.id = some 2) := by
  refine ⟨?_, ?_, ?_⟩
  · intro s ops hwf
    have hwf2 := messagesWF_applyPosts ops s hwf
    refine ⟨length_readHistoryRows_le _, pairwise_lt_readHistoryRows _ hwf2.1,
      ?_⟩
    intro nick h hh
    unfold readHistory at hh
    cases hget : dbGetUser (applyPosts s ops).users nick with
    | none => rw [hget] at hh; exact absurd hh (by simp)
    | some user =>
      rw [hget] at hh
      cases hb : user.banned with
      | true => simp [hb] at hh
      | false =>
        simp [hb] at hh
        first
        | exact hh
        | exact hh.symm
  · intro msgs hnd
    exact ⟨length_trimMessages msgs hnd,
      fun m hm => mem_of_mem_trimMessages hm,
      fun m hm hdrop mk hk => trim_drop_lt_keep msgs hnd m hm hdrop mk hk⟩
  · obtain ⟨h1, h2⟩ := demo101_report
    refine ⟨h1, h2, ?_, ?_⟩
    · have hl := congrArg List.length h2
      simpa using hl
    · have hh := congrArg List.head? h2
      rw [List.head?_map] at hh
      rw [hh]
      decide

/-- Witness for C1 at concrete inputs. -/
theorem history_invariant_and_trim_witness :
    (readHistoryPublic (applyPosts demoStart [])).length ≤ 100 ∧
    (trimMessages []).length = min 100 (List.length ([] : List Message)) :=
  ⟨(history_invariant_and_trim.1 demoStart [] ⟨by decide, by decide⟩).1,
    (history_invariant_and_trim.2.1 [] (by decide)).1⟩

/-- C3 counterexample: `alice` is a known, non-banned account, the body
`"example.com"` is a valid 1-500 character message and the rate limiter
allows the attempt, yet `post` rejects it (`"Links are not allowed"`),
which is none of Unauthorized/Banned/InvalidMessage/RateLimited and not a
success. -/
theorem post_url_rejection_counterexample :
    dbGetUser demoStart.users "alice".data = some demoUser ∧
    demoUser.banned = false ∧
    validateMessage (jsTrim "example.com".data) = true ∧
    (checkRateLimit demoStart.rateLimits "alice".data 0).1.allowed = true ∧
    (post demoStart "alice".data "example.com".data 0 []).result =
      .linksNotAllowed ∧
    (post demoStart "alice".data "example.com".data 0 []).state = demoStart ∧
    (post demoStart "alice".data "example.com".data 0 []).events = [] := by
  decide

/-- C3 (amended): a post by a known, non-banned account whose trimmed body
is a valid message and does not match the URL filter and which the rate
limiter allows, succeeds — the message is appended (and the table trimmed),
a `message` event carrying the full message is delivered to every
subscriber, and the created message is returned; and a post is rejected
only as Unauthorized, Banned, InvalidMessage, LinksNotAllowed, or
RateLimited with `retryAt = now + cooldownSeconds * 1000`. -/
theorem post_functional_correctness :
    (∀ (s : ServerState) (n b : Str) (now : Nat) (ca : Str) (u : UserRow),
      dbGetUser s.users n = some u → u.banned = false →
      validateMessage (jsTrim b) = true → containsUrl (jsTrim b) = false →
      (checkRateLimit s.rateLimits n now).1.allowed = true →
      post s n b now ca =
        ⟨.created ⟨s.nextMessageId, n, jsTrim b, ca⟩,
          { s with
              messages := trimMessages
                (s.messages ++ [⟨s.nextMessageId, n, jsTrim b, ca⟩]),
              nextMessageId := s.nextMessageId + 1,
              rateLimits := (checkRateLimit s.rateLimits n now).2 },
          [.msg ⟨s.nextMessageId, n, jsTrim b, ca⟩]⟩ ∧
      ∀ c ∈ s.streamClients,
        deliveredTo s.streamClients (post s n b now ca).events c =
          [.msg ⟨s.nextMessageId, n, jsTrim b, ca⟩]) ∧
    (∀ (s : ServerState) (n b : Str) (now : Nat) (ca : Str),
      (∃ m, (post s n b now ca).result = .created m) ∨
      (post s n b now ca).result = .unauthorized ∨
      (post s n b now ca).result = .bannedRejected ∨
      (post s n b now ca).result = .invalidMessage ∨
      (post s n b now ca).result = .linksNotAllowed ∨
      (∃ cd, (post s n b now ca).result = .rateLimited cd (now + cd * 1000))) := by
  constructor
  · intro s n b now ca u hu hb hv hurl hallow
    have hpost := post_success s n b now ca u hu hb hv hurl hallow
    refine ⟨hpost, ?_⟩
    intro c hc
    rw [hpost, deliveredTo, if_pos hc]
  · intro s n b now ca
    rcases post_cases s n b now ca with
      ⟨_, heq⟩ | ⟨u, _, _, heq⟩ | ⟨u, _, _, _, heq⟩ | ⟨u, _, _, _, _, heq⟩ |
      ⟨u, _, _, _, _, _, heq⟩ | ⟨u, _, _, _, _, _, heq⟩
    · exact Or.inr (Or.inl (by rw [heq]))
    · exact Or.inr (Or.inr (Or.inl (by rw [heq])))
    · exact Or.inr (Or.inr (Or.inr (Or.inl (by rw [heq]))))
    · exact Or.inr (Or.inr (Or.inr (Or.inr (Or.inl (by rw [heq])))))
    · exact Or.inr (Or.inr (Or.inr (Or.inr (Or.inr
        ⟨(checkRateLimit s.rateLimits n now).1.cooldownSeconds.getD 0,
          by rw [heq]⟩))))
    · exact Or.inl ⟨⟨s.nextMessageId, n, jsTrim b, ca⟩, by rw [heq]⟩

/-- Witness for the amended C3 at concrete inputs. -/
theorem post_functional_correctness_witness :
    post demoStart "alice".data "hello".data 0 [] =
      ⟨.created ⟨1, "alice".data, jsTrim "hello".data, []⟩,
        { demoStart with
            messages := trimMessages
              (demoStart.messages ++ [⟨1, "alice".data, jsTrim "hello".data, []⟩]),
            nextMessageId := 2,
            rateLimits := (checkRateLimit demoStart.rateLimits "alice".data 0).2 },
        [.msg ⟨1, "alice".data, jsTrim "hello".data, []⟩]⟩ :=
  (post_functional_correctness.1 demoStart "alice".data "hello".data 0 []
    demoUser (by decide) (by decide) (by decide) (by decide) (by decide)).1

/-! ### Ban lemmas -/

theorem ids_map_pointwise (msgs : List Message) (f : Message → Message)
    (hf : ∀ m, (f m).id = m.id) :
    (msgs.map f).map Message.id = msgs.map Message.id := by
  rw [List.map_map]
  exact List.map_congr_left fun m _ => hf m

theorem dbGetUser_map_ban (users : List UserRow) (u : Str) :
    dbGetUser
      (users.map fun v =>
        if v.nickname == u then { v with banned := true } else v) u =
      (dbGetUser users u).map fun v => { v with banned := true } := by
  induction users with
  | nil => rfl
  | cons v rest ih =>
    by_cases hv : (v.nickname == u) = true
    · have hbanned :
          ((fun w : UserRow => w.nickname == u)
            { v with banned := true }) = true := hv
      have hval : ((fun w : UserRow => w.nickname == u) v) = true := hv
      rw [dbGetUser, List.map_cons, if_pos hv,
        @List.find?_cons_of_pos _ (fun w : UserRow => w.nickname == u)
          { v with banned := true } _ hbanned,
        dbGetUser, @List.find?_cons_of_pos _
          (fun w : UserRow => w.nickname == u) v _ hval]
      rfl
    · have hv2 : ¬ ((fun w : UserRow => w.nickname == u) v) = true := hv
      rw [dbGetUser, List.map_cons, if_neg hv,
        @List.find?_cons_of_neg _ (fun w : UserRow => w.nickname == u) v _ hv2,
        dbGetUser, @List.find?_cons_of_neg _
          (fun w : UserRow => w.nickname == u) v _ hv2]
      exact ih

theorem map_ban_no_user (users : List UserRow) (u : Str)
    (h : dbGetUser users u = none) :
    (users.map fun v =>
      if v.nickname == u then { v with banned := true } else v) = users := by
  have hall : ∀ v ∈ users, ¬ ((v.nickname == u) = true) := by
    intro v hv
    exact List.find?_eq_none.mp h v hv
  have : (users.map fun v =>
      if v.nickname == u then { v with banned := true } else v) =
      users.map id := by
    exact List.map_congr_left fun v hv => by
      rw [if_neg (hall v hv)]
      rfl
  rw [this, List.map_id]

theorem mem_trim_append_top (msgs : List Message) (msg : Message)
    (hnd : (msgs.map Message.id).Nodup) (htop : ∀ m ∈ msgs, m.id < msg.id) :
    msg ∈ trimMessages (msgs ++ [msg]) := by
  have hnd2 : ((msgs ++ [msg]).map Message.id).Nodup :=
    nodup_ids_append_fresh msgs msg hnd fun m hm => Nat.ne_of_lt (htop m hm)
  by_contra hdrop
  have hmem : msg ∈ msgs ++ [msg] :=
    List.mem_append.mpr (Or.inr (List.mem_singleton.mpr rfl))
  have hpos : 0 < (trimMessages (msgs ++ [msg])).length := by
    rw [length_trimMessages _ hnd2, List.length_append]
    simp
  obtain ⟨mk, hk⟩ := List.exists_mem_of_length_pos hpos
  have hlt := trim_drop_lt_keep _ hnd2 msg hmem hdrop mk hk
  rcases List.mem_append.mp (mem_of_mem_trimMessages hk) with hkm | hkl
  · have := htop mk hkm
    omega
  · rw [List.mem_singleton.mp hkl] at hk
    exact hdrop hk

/-- The state/events produced by a `ban` whose nickname validates. -/
theorem ban_unfold (s : ServerState) (u : Str) (ca : Str)
    (htrim : jsTrim u = u) (hval : validateNickname u = true) :
    ban s u ca =
      (.ok,
        { s with
            users := s.users.map fun v =>
              if v.nickname == u then { v with banned := true } else v,
            messages := trimMessages
              ((s.messages.map fun m =>
                if m.nickname == u then { m with body := redactionMarker }
                else m) ++
                [⟨s.nextMessageId, systemNick, banAnnouncement u, ca⟩]),
            nextMessageId := s.nextMessageId + 1 },
        [.purgeU u, .banU u,
          .msg ⟨s.nextMessageId, systemNick, banAnnouncement u, ca⟩]) := by
  rw [ban, htrim]
  simp [hval]

/-- C4: banning an existing, validly-named account sets its banned flag,
redacts all its prior messages, appends the announcing system log message,
rejects its subsequent posts as Banned, and delivers `purge`, `ban`, then
the log `message` — in that order — to every subscriber. -/
theorem ban_existing_account (s : ServerState) (u : Str) (ca : Str)
    (acc : UserRow) (htrim : jsTrim u = u) (hval : validateNickname u = true)
    (hacc : dbGetUser s.users u = some acc) (hwf : messagesWF s) :
    (ban s u ca).1 = .ok ∧
    dbGetUser (ban s u ca).2.1.users u = some { acc with banned := true } ∧
    (∀ m ∈ (ban s u ca).2.1.messages,
      m.nickname = u → m.id < s.nextMessageId → m.body = redactionMarker) ∧
    (⟨s.nextMessageId, systemNick, banAnnouncement u, ca⟩ : Message) ∈
      (ban s u ca).2.1.messages ∧
    (∀ b now ca2, (post (ban s u ca).2.1 u b now ca2).result =
      .bannedRejected) ∧
    (ban s u ca).2.2 =
      [.purgeU u, .banU u,
        .msg ⟨s.nextMessageId, systemNick, banAnnouncement u, ca⟩] ∧
    ∀ c ∈ s.streamClients,
      deliveredTo s.streamClients (ban s u ca).2.2 c =
        [.purgeU u, .banU u,
          .msg ⟨s.nextMessageId, systemNick, banAnnouncement u, ca⟩] := by
  have hb := ban_unfold s u ca htrim hval
  have hget2 : dbGetUser (ban s u ca).2.1.users u =
      some { acc with banned := true } := by
    rw [hb, dbGetUser_map_ban, hacc]
    rfl
  have hredact : ∀ m ∈ (ban s u ca).2.1.messages,
      m.nickname = u → m.id < s.nextMessageId → m.body = redactionMarker := by
    rw [hb]
    intro m hm hnick hid
    rcases List.mem_append.mp (mem_of_mem_trimMessages hm) with hmr | hml
    · obtain ⟨m0, hm0, hmeq⟩ := List.mem_map.mp hmr
      by_cases h0 : (m0.nickname == u) = true
      · rw [if_pos h0] at hmeq
        rw [← hmeq]
      · rw [if_neg h0] at hmeq
        rw [← hmeq] at hnick
        exact absurd (beq_iff_eq.mpr hnick) h0
    · rw [List.mem_singleton.mp hml] at hid
      exact absurd hid (Nat.lt_irrefl _)
  have hlog : (⟨s.nextMessageId, systemNick, banAnnouncement u, ca⟩ :
      Message) ∈ (ban s u ca).2.1.messages := by
    rw [hb]
    apply mem_trim_append_top
    · rw [ids_map_pointwise]
      · exact hwf.1
      · intro m
        by_cases h0 : (m.nickname == u) = true
        · rw [if_pos h0]
        · rw [if_neg h0]
    · intro m hm
      obtain ⟨m0, hm0, hmeq⟩ := List.mem_map.mp hm
      have hid0 : m.id = m0.id := by
        rw [← hmeq]
        by_cases h0 : (m0.nickname == u) = true
        · rw [if_pos h0]
        · rw [if_neg h0]
      rw [hid0]
      exact hwf.2 m0 hm0
  refine ⟨by rw [hb], hget2, hredact, hlog, ?_, by rw [hb], ?_⟩
  · intro b now ca2
    rw [post_of_banned (ban s u ca).2.1 u b now ca2
      { acc with banned := true } hget2 rfl]
  · intro c hc
    rw [deliveredTo, if_pos hc, hb]

/-- Witness for C4 at concrete inputs. -/
theorem ban_existing_account_witness :
    (ban demoStart "alice".data []).1 = .ok ∧
    dbGetUser (ban demoStart "alice".data []).2.1.users "alice".data =
      some { demoUser with banned := true } ∧
    (ban demoStart "alice".data []).2.2 =
      [.purgeU "alice".data, .banU "alice".data,
        .msg ⟨1, systemNick, banAnnouncement "alice".data, []⟩] :=
  have h := ban_existing_account demoStart "alice".data [] demoUser
    (by decide) (by decide) (by decide) ⟨by decide, by decide⟩
  ⟨h.1, h.2.1, h.2.2.2.2.2.1⟩

/-- C10: banning a validly-formatted nickname with no account row does not
fail: it returns ok (there is no NotFound branch), leaves the users table
unchanged, still appends the announcing system log message, and still
publishes `purge`, `ban`, and the log `message` to every subscriber. -/
theorem ban_unknown_account (s : ServerState) (u : Str) (ca : Str)
    (htrim : jsTrim u = u) (hval : validateNickname u = true)
    (hnone : dbGetUser s.users u = none) (hwf : messagesWF s) :
    (ban s u ca).1 = .ok ∧
    (ban s u ca).2.1.users = s.users ∧
    (⟨s.nextMessageId, systemNick, banAnnouncement u, ca⟩ : Message) ∈
      (ban s u ca).2.1.messages ∧
    (ban s u ca).2.2 =
      [.purgeU u, .banU u,
        .msg ⟨s.nextMessageId, systemNick, banAnnouncement u, ca⟩] ∧
    ∀ c ∈ s.streamClients,
      deliveredTo s.streamClients (ban s u ca).2.2 c =
        [.purgeU u, .banU u,
          .msg ⟨s.nextMessageId, systemNick, banAnnouncement u, ca⟩] := by
  have hb := ban_unfold s u ca htrim hval
  have husers : (ban s u ca).2.1.users = s.users := by
    rw [hb]
    exact map_ban_no_user s.users u hnone
  have hlog : (⟨s.nextMessageId, systemNick, banAnnouncement u, ca⟩ :
      Message) ∈ (ban s u ca).2.1.messages := by
    rw [hb]
    apply mem_trim_append_top
    · rw [ids_map_pointwise]
      · exact hwf.1
      · intro m
        by_cases h0 : (m.nickname == u) = true
        · rw [if_pos h0]
        · rw [if_neg h0]
    · intro m hm
      obtain ⟨m0, hm0, hmeq⟩ := List.mem_map.mp hm
      have hid0 : m.id = m0.id := by
        rw [← hmeq]
        by_cases h0 : (m0.nickname == u) = true
        · rw [if_pos h0]
        · rw [if_neg h0]
      rw [hid0]
      exact hwf.2 m0 hm0
  refine ⟨by rw [hb], husers, hlog, by rw [hb], ?_⟩
  intro c hc
  rw [deliveredTo, if_pos hc, hb]

/-- Witness for C10 at concrete inputs (`bob_xyz` has no account). -/
theorem ban_unknown_account_witness :
    (ban demoStart "bob_xyz".data []).1 = .ok ∧
    (ban demoStart "bob_xyz".data []).2.1.users = demoStart.users ∧
    (ban demoStart "bob_xyz".data []).2.2 =
      [.purgeU "bob_xyz".data, .banU "bob_xyz".data,
        .msg ⟨1, systemNick, banAnnouncement "bob_xyz".data, []⟩] :=
  have h := ban_unknown_account demoStart "bob_xyz".data [] (by decide)
    (by decide) (by decide) ⟨by decide, by decide⟩
  ⟨h.1, h.2.1, h.2.2.2.1⟩

/-! ### Redaction lemmas -/

theorem deleteMessage_found (s : ServerState) (j : Nat) (hpos : 0 < j)
    (hany : s.messages.any (fun x => x.id == j) = true) :
    deleteMessage s j =
      (.ok,
        { s with messages := s.messages.map fun x =>
            if x.id == j then { x with body := redactionMarker } else x },
        [.deleteM j]) := by
  rw [deleteMessage, if_neg (by omega), if_neg (not_not_intro hany)]

/-- C5: redaction is idempotent.  For a message `m` present in the table
(ids are positive), the first `deleteMessage m.id` succeeds, stores the row
with the same id, author and timestamp and body `"message deleted"`; the
second call also succeeds and leaves the table exactly as after the first;
and in general `deleteMessage` returns NotFound exactly when no row with
that id exists (a redacted row is still found). -/
theorem deleteMessage_idempotent (s : ServerState) (m : Message)
    (hm : m ∈ s.messages) (hpos : 0 < m.id) :
    (deleteMessage s m.id).1 = .ok ∧
    ({ m with body := redactionMarker } : Message) ∈
      (deleteMessage s m.id).2.1.messages ∧
    (deleteMessage s m.id).2.2 = [.deleteM m.id] ∧
    (deleteMessage (deleteMessage s m.id).2.1 m.id).1 = .ok ∧
    (deleteMessage (deleteMessage s m.id).2.1 m.id).2.1.messages =
      (deleteMessage s m.id).2.1.messages ∧
    (∀ (s2 : ServerState) (j : Nat), 0 < j →
      ((deleteMessage s2 j).1 = .notFound ↔
        ¬ ∃ x ∈ s2.messages, x.id = j)) := by
  have hany1 : s.messages.any (fun x => x.id == m.id) = true :=
    List.any_eq_true.mpr ⟨m, hm, beq_self_eq_true m.id⟩
  have e1 := deleteMessage_found s m.id hpos hany1
  have hmem2 : ({ m with body := redactionMarker } : Message) ∈
      (deleteMessage s m.id).2.1.messages := by
    rw [e1]
    refine List.mem_map.mpr ⟨m, hm, ?_⟩
    show (if (m.id == m.id) = true then
      ({ m with body := redactionMarker } : Message) else m) =
      { m with body := redactionMarker }
    rw [if_pos (beq_self_eq_true m.id)]
  have hany2 : (deleteMessage s m.id).2.1.messages.any
      (fun x => x.id == m.id) = true :=
    List.any_eq_true.mpr ⟨{ m with body := redactionMarker }, hmem2,
      beq_self_eq_true m.id⟩
  have e2 := deleteMessage_found (deleteMessage s m.id).2.1 m.id hpos hany2
  refine ⟨by rw [e1], hmem2, by rw [e1], by rw [e2], ?_, ?_⟩
  · rw [e2, e1]
    show List.map _ (List.map _ s.messages) = List.map _ s.messages
    rw [List.map_map]
    apply List.map_congr_left
    intro x _
    by_cases hx : (x.id == m.id) = true
    · have hx2 : x.id = m.id := beq_iff_eq.mp hx
      simp [Function.comp_apply, hx2]
    · have hx2 : ¬ (x.id = m.id) := fun h => hx (beq_iff_eq.mpr h)
      simp [Function.comp_apply, hx2]
  · intro s2 j hj
    rw [deleteMessage, if_neg (by omega)]
    by_cases hany : s2.messages.any (fun x => x.id == j) = true
    · rw [if_neg (not_not_intro hany)]
      constructor
      · intro h
        simp at h
      · intro hno
        obtain ⟨x, hx, hbeq⟩ := List.any_eq_true.mp hany
        exact absurd ⟨x, hx, beq_iff_eq.mp hbeq⟩ hno
    · rw [if_pos hany]
      constructor
      · intro _
        rintro ⟨x, hx, hid⟩
        exact hany (List.any_eq_true.mpr ⟨x, hx, beq_iff_eq.mpr hid⟩)
      · intro _
        rfl

def demoMsg : Message := ⟨1, "alice".data, "hi".data, []⟩

def demoMsgState : ServerState := ⟨[demoUser], [demoMsg], 2, [], [0]⟩

/-- Witness for C5 at concrete inputs. -/
theorem deleteMessage_idempotent_witness :
    (deleteMessage demoMsgState demoMsg.id).1 = .ok ∧
    (deleteMessage (deleteMessage demoMsgState demoMsg.id).2.1
      demoMsg.id).1 = .ok ∧
    (deleteMessage (deleteMessage demoMsgState demoMsg.id).2.1
      demoMsg.id).2.1.messages =
      (deleteMessage demoMsgState demoMsg.id).2.1.messages :=
  have h := deleteMessage_idempotent demoMsgState demoMsg (by decide)
    (by decide)
  ⟨h.1, h.2.2.2.1, h.2.2.2.2.1⟩

/-! ### Registration and login -/

theorem isEmpty_false_of_validateNickname {n : Str}
    (h : validateNickname n = true) : n.isEmpty = false := by
  cases hn : n with
  | nil => rw [hn] at h; simp [validateNickname] at h
  | cons a l => rfl

/-- C6: for a valid, unregistered identity/secret pair, register then
authenticate with the same pair succeeds, and the issued token verifies to
the same identity (given the bcrypt/JWT contracts of the external
primitives). -/
theorem register_then_login (c : Crypto) (s : ServerState)
    (rawN p ca : Str)
    (hn : validateNickname (jsTrim rawN) = true)
    (hp : validatePassword p = true)
    (hnone : dbGetUser s.users (jsTrim rawN) = none)
    (hcmp : c.compare p (c.hash p) = true)
    (hver : c.verify (c.sign (jsTrim rawN)) = some (jsTrim rawN)) :
    register c s rawN p ca =
      (.ok (jsTrim rawN) (c.sign (jsTrim rawN)),
        { s with users := s.users ++ [⟨jsTrim rawN, c.hash p, ca, false⟩] }) ∧
    login c { s with
        users := s.users ++ [⟨jsTrim rawN, c.hash p, ca, false⟩] } rawN p =
      .ok (jsTrim rawN) (c.sign (jsTrim rawN)) ∧
    verifyToken c (c.sign (jsTrim rawN)) = some (jsTrim rawN) := by
  have hnone2 : s.users.find? (fun v => v.nickname == jsTrim rawN) = none :=
    hnone
  have hany : (s.users.any fun v => v.nickname == jsTrim rawN) = false := by
    cases h : s.users.any fun v => v.nickname == jsTrim rawN with
    | true =>
      obtain ⟨v, hv, hbeq⟩ := List.any_eq_true.mp h
      exact absurd hbeq (List.find?_eq_none.mp hnone2 v hv)
    | false => rfl
  have hrowbeq : ((fun w : UserRow => w.nickname == jsTrim rawN)
      (⟨jsTrim rawN, c.hash p, ca, false⟩ : UserRow)) = true :=
    beq_self_eq_true (jsTrim rawN)
  have hget : dbGetUser (s.users ++ [⟨jsTrim rawN, c.hash p, ca, false⟩])
      (jsTrim rawN) = some ⟨jsTrim rawN, c.hash p, ca, false⟩ := by
    rw [dbGetUser, List.find?_append, hnone2,
      @List.find?_cons_of_pos _ (fun w : UserRow => w.nickname == jsTrim rawN)
        (⟨jsTrim rawN, c.hash p, ca, false⟩ : UserRow) _ hrowbeq]
    rfl
  refine ⟨?_, ?_, ?_⟩
  · simp [register, hn, hp, hnone, dbInsertUser, hany]
  · simp [login, hn, hp, hget, hcmp]
  · simp [verifyToken, hver, isEmpty_false_of_validateNickname hn]

def demoEmpty : ServerState := ⟨[], [], 1, [], []⟩

def demoCrypto : Crypto := ⟨id, fun a b => a == b, id, fun t => some t⟩

/-- Witness for C6 at concrete inputs. -/
theorem register_then_login_witness :
    login demoCrypto
      { demoEmpty with
          users := demoEmpty.users ++
            [⟨jsTrim "alice".data, demoCrypto.hash "secret1".data, [],
              false⟩] }
      "alice".data "secret1".data =
      .ok (jsTrim "alice".data) (demoCrypto.sign (jsTrim "alice".data)) ∧
    verifyToken demoCrypto (demoCrypto.sign (jsTrim "alice".data)) =
      some (jsTrim "alice".data) :=
  have h := register_then_login demoCrypto demoEmpty "alice".data
    "secret1".data [] (by decide) (by decide) (by decide) (by decide)
    (by decide)
  ⟨h.2.1, h.2.2⟩

/-- C7: registering an identity that already has an account fails — with
Banned if the account is banned, Conflict otherwise — and leaves the users
table (hence the existing row) unchanged. -/
theorem register_existing_never_overwrites (c : Crypto) (s : ServerState)
    (rawN p ca : Str) (acc : UserRow)
    (hn : validateNickname (jsTrim rawN) = true)
    (hp : validatePassword p = true)
    (hacc : dbGetUser s.users (jsTrim rawN) = some acc) :
    (register c s rawN p ca).2 = s ∧
    (acc.banned = true → (register c s rawN p ca).1 = .bannedRejected) ∧
    (acc.banned = false → (register c s rawN p ca).1 = .conflict) := by
  have hmem : acc ∈ s.users :=
    @List.mem_of_find?_eq_some _ (fun v : UserRow => v.nickname == jsTrim rawN)
      acc s.users hacc
  have hbeq : ((fun v : UserRow => v.nickname == jsTrim rawN) acc) = true :=
    @List.find?_some _ (fun v : UserRow => v.nickname == jsTrim rawN) acc
      s.users hacc
  have hany : (s.users.any fun v => v.nickname == jsTrim rawN) = true :=
    List.any_eq_true.mpr ⟨acc, hmem, hbeq⟩
  cases hb : acc.banned with
  | true =>
    refine ⟨?_, fun _ => ?_, fun hfalse => absurd hfalse (by decide)⟩
    · simp [register, hn, hp, hacc, hb]
    · simp [register, hn, hp, hacc, hb]
  | false =>
    refine ⟨?_, fun htrue => absurd htrue (by decide), fun _ => ?_⟩
    · simp [register, hn, hp, hacc, hb, dbInsertUser, hany]
    · simp [register, hn, hp, hacc, hb, dbInsertUser, hany]

/-- Witness for C7 at concrete inputs. -/
theorem register_existing_never_overwrites_witness :
    (register demoCrypto demoStart "alice".data "secret1".data []).2 =
      demoStart ∧
    (register demoCrypto demoStart "alice".data "secret1".data []).1 =
      .conflict :=
  have h := register_existing_never_overwrites demoCrypto demoStart
    "alice".data "secret1".data [] demoUser (by decide) (by decide)
    (by decide)
  ⟨h.1, h.2.2 (by decide)⟩

/-- C8: a login naming an identity with no account and a login naming an
existing non-banned account with a wrong secret produce the identical
observable failure (HTTP 401, body "Invalid credentials"), so the two
causes are indistinguishable to the caller. -/
theorem login_failures_indistinguishable (c : Crypto) (s : ServerState)
    (n1 p1 n2 p2 : Str) (acc : UserRow)
    (hn1 : validateNickname (jsTrim n1) = true)
    (hp1 : validatePassword p1 = true)
    (hnone : dbGetUser s.users (jsTrim n1) = none)
    (hn2 : validateNickname (jsTrim n2) = true)
    (hp2 : validatePassword p2 = true)
    (hacc : dbGetUser s.users (jsTrim n2) = some acc)
    (hb : acc.banned = false)
    (hcmp : c.compare p2 acc.password_hash = false) :
    login c s n1 p1 = .err 401 invalidCredentialsMsg ∧
    login c s n2 p2 = .err 401 invalidCredentialsMsg ∧
    login c s n1 p1 = login c s n2 p2 := by
  have h1 : login c s n1 p1 = .err 401 invalidCredentialsMsg := by
    simp [login, hn1, hp1, hnone]
  have h2 : login c s n2 p2 = .err 401 invalidCredentialsMsg := by
    simp [login, hn2, hp2, hacc, hb, hcmp]
  exact ⟨h1, h2, by rw [h1, h2]⟩

/-- Witness for C8 at concrete inputs. -/
theorem login_failures_indistinguishable_witness :
    login demoCrypto demoStart "bob_xyz".data "secret1".data =
      .err 401 invalidCredentialsMsg ∧
    login demoCrypto demoStart "alice".data "wrongpw".data =
      .err 401 invalidCredentialsMsg ∧
    login demoCrypto demoStart "bob_xyz".data "secret1".data =
      login demoCrypto demoStart "alice".data "wrongpw".data :=
  login_failures_indistinguishable demoCrypto demoStart "bob_xyz".data
    "secret1".data "alice".data "wrongpw".data demoUser (by decide)
    (by decide) (by decide) (by decide) (by decide) (by decide) (by decide)
    (by decide)

/-- C9: `post` trims the body before validation, storage and broadcast — a
whitespace-only body fails validation and is rejected as InvalidMessage,
and any created message has body `jsTrim raw`, which has no leading or
trailing whitespace; the broadcast `message` event carries that same body,
and (for a well-formed table) the stored row is in the table. -/
theorem post_trims_body (s : ServerState) (n raw : Str) (now : Nat)
    (ca : Str) :
    (∀ u : UserRow, dbGetUser s.users n = some u → u.banned = false →
      (∀ ch ∈ raw, ch.isWhitespace = true) →
      (post s n raw now ca).result = .invalidMessage) ∧
    (∀ m, (post s n raw now ca).result = .created m →
      m.body = jsTrim raw ∧ trimmedStr m.body ∧
      (post s n raw now ca).events = [.msg m] ∧
      (messagesWF s → m ∈ (post s n raw now ca).state.messages)) := by
  constructor
  · intro u hu hb hws
    have htrim : jsTrim raw = [] := jsTrim_nil_of_all_ws raw hws
    have hv : validateMessage (jsTrim raw) = false := by
      rw [htrim]
      decide
    rw [post_of_invalid s n raw now ca u hu hb hv]
  · intro m hres
    rcases post_cases s n raw now ca with
      ⟨_, heq⟩ | ⟨u, _, _, heq⟩ | ⟨u, _, _, _, heq⟩ | ⟨u, _, _, _, _, heq⟩ |
      ⟨u, _, _, _, _, _, heq⟩ | ⟨u, _, _, _, _, _, heq⟩ <;>
      rw [heq] at hres <;> simp only [] at hres
    · cases hres
    · cases hres
    · cases hres
    · cases hres
    · cases hres
    · have hm : m = ⟨s.nextMessageId, n, jsTrim raw, ca⟩ := by
        cases hres
        rfl
      subst hm
      refine ⟨rfl, trimmedStr_jsTrim raw, by rw [heq], ?_⟩
      intro hwf
      rw [heq]
      exact mem_trim_append_top s.messages _ hwf.1 fun m0 h0 => hwf.2 m0 h0

/-- Witness for C9 at concrete inputs. -/
theorem post_trims_body_witness :
    (post demoStart "alice".data "   ".data 0 []).result =
      .invalidMessage ∧
    (⟨1, "alice".data, "hi".data, []⟩ : Message).body = jsTrim " hi ".data ∧
    trimmedStr ((⟨1, "alice".data, "hi".data, []⟩ : Message).body) :=
  have h := post_trims_body demoStart "alice".data "   ".data 0 []
  have h2 := post_trims_body demoStart "alice".data " hi ".data 0 []
  have h3 := h2.2 ⟨1, "alice".data, "hi".data, []⟩ (by decide)
  ⟨h.1 demoUser (by decide) (by decide) (by decide), h3.1, h3.2.1⟩

end Chat
